import Mathlib

/-!
Verification of the StarRocks vectorized hash-join core
(`be/src/exec/vectorized/join_hash_map.cpp` and
`be/src/exec/pipeline/hashjoin/hash_join_build_operator.cpp`)
against its natural-language specification.

The C++ is shallowly embedded: each relevant C++ function becomes a Lean
function of the same name (modulo the leading underscore of private
methods); the chained hash index becomes an explicit `TableIndex` state
threaded through folds; machine integers are `Nat` (none of the verified
code paths overflow by construction: row indices, byte widths and 0/1
flags).
-/

namespace StarRocks

/-- Subset of the thrift `PrimitiveType` enum covering every constructor the
join code mentions, plus representatives of the default branch. -/
inductive PrimitiveType where
  | TYPE_BOOLEAN
  | TYPE_TINYINT
  | TYPE_SMALLINT
  | TYPE_INT
  | TYPE_BIGINT
  | TYPE_LARGEINT
  | TYPE_FLOAT
  | TYPE_DOUBLE
  | TYPE_VARCHAR
  | TYPE_CHAR
  | TYPE_DATE
  | TYPE_DATETIME
  | TYPE_DECIMALV2
  | TYPE_DECIMAL32
  | TYPE_DECIMAL64
  | TYPE_DECIMAL128
  | TYPE_NULL
  | TYPE_HLL
  | TYPE_OBJECT
  | TYPE_PERCENTILE
  | TYPE_TIME
  | TYPE_JSON
  deriving DecidableEq, Repr

/-- The tag of the specialized hash-map implementation selected once per
join (`JoinHashMapType` in the source). -/
inductive JoinHashMapType where
  | empty
  | keyboolean
  | key8
  | key16
  | key32
  | key64
  | key128
  | keyfloat
  | keydouble
  | keystring
  | keydate
  | keydatetime
  | keydecimal
  | keydecimal32
  | keydecimal64
  | keydecimal128
  | fixed32
  | fixed64
  | fixed128
  | slice
  deriving DecidableEq, Repr

/-- The thrift `TJoinOp` join-type enum (the constructors the join core
dispatches on, plus the remaining relational ones for the default case). -/
inductive TJoinOp where
  | INNER_JOIN
  | LEFT_OUTER_JOIN
  | LEFT_SEMI_JOIN
  | LEFT_ANTI_JOIN
  | RIGHT_OUTER_JOIN
  | RIGHT_SEMI_JOIN
  | RIGHT_ANTI_JOIN
  | FULL_OUTER_JOIN
  | CROSS_JOIN
  | MERGE_JOIN
  | NULL_AWARE_LEFT_ANTI_JOIN
  deriving DecidableEq, Repr

/-- `JoinHashTable::_get_size_of_fixed_and_contiguous_type`: byte width of a
key type's `RunTimeTypeTraits<...>::CppType` for the fixed-width types the
switch enumerates (bool/int8 1, int16 2, int32/float/DateValue 4,
int64/double/TimestampValue 8); every other type falls into the default
branch and yields 0. -/
def get_size_of_fixed_and_contiguous_type (data_type : PrimitiveType) : Nat :=
  match data_type with
  | .TYPE_BOOLEAN => 1
  | .TYPE_TINYINT => 1
  | .TYPE_SMALLINT => 2
  | .TYPE_INT => 4
  | .TYPE_BIGINT => 8
  | .TYPE_FLOAT => 4
  | .TYPE_DOUBLE => 8
  | .TYPE_DATE => 4
  | .TYPE_DATETIME => 8
  | _ => 0

/-- One join key as seen by `_choose_join_hash_map`: its declared type, its
`is_null_safe_equal` flag, and whether the corresponding build key column
reports `has_null()` (the selector drops the null-safe flag when it does
not). -/
structure JoinKeyDesc where
  ptype : PrimitiveType
  null_safe_equal : Bool
  col_has_null : Bool
  deriving DecidableEq, Repr

/-- The null-safe flag after the selector's first loop: `is_null_safe_equal`
is forced to false for a key whose column contains no NULL. -/
def effNullSafe (k : JoinKeyDesc) : Bool :=
  k.null_safe_equal && k.col_has_null

/-- The single-key, non-null-safe switch of `_choose_join_hash_map`. -/
def singleKeyMapType (t : PrimitiveType) : JoinHashMapType :=
  match t with
  | .TYPE_BOOLEAN => .keyboolean
  | .TYPE_TINYINT => .key8
  | .TYPE_SMALLINT => .key16
  | .TYPE_INT => .key32
  | .TYPE_BIGINT => .key64
  | .TYPE_LARGEINT => .key128
  | .TYPE_FLOAT => .keyfloat
  | .TYPE_DOUBLE => .keydouble
  | .TYPE_VARCHAR => .keystring
  | .TYPE_CHAR => .keystring
  | .TYPE_DATE => .keydate
  | .TYPE_DATETIME => .keydatetime
  | .TYPE_DECIMALV2 => .keydecimal
  | .TYPE_DECIMAL32 => .keydecimal32
  | .TYPE_DECIMAL64 => .keydecimal64
  | .TYPE_DECIMAL128 => .keydecimal128
  | _ => .slice

/-- The accumulation loop of the multi-key path: one extra byte per
(effective) null-safe key, plus the key type's fixed width; the first key
whose width is 0 aborts the loop (the source returns `slice` there), which
the embedding renders as `none`. -/
def multiKeyTotalSize : List JoinKeyDesc → Option Nat
  | [] => some 0
  | k :: ks =>
      let nullByte : Nat := if effNullSafe k then 1 else 0
      let s := get_size_of_fixed_and_contiguous_type k.ptype
      if 0 < s then (multiKeyTotalSize ks).map (fun t => nullByte + s + t)
      else none

/-- The threshold dispatch at the end of the multi-key path of
`_choose_join_hash_map`. -/
def multiKeyMapType (keys : List JoinKeyDesc) : JoinHashMapType :=
  match multiKeyTotalSize keys with
  | none => .slice
  | some total =>
      if total ≤ 4 then .fixed32
      else if total ≤ 8 then .fixed64
      else if total ≤ 16 then .fixed128
      else .slice

/-- `JoinHashTable::_choose_join_hash_map`: after dropping null-safe flags
of null-free columns, a single non-null-safe key takes the type-specialized
switch; every other shape takes the packed/slice path. -/
def choose_join_hash_map (keys : List JoinKeyDesc) : JoinHashMapType :=
  match keys with
  | [k] => if effNullSafe k then multiKeyMapType [k] else singleKeyMapType k.ptype
  | ks => multiKeyMapType ks

/-- The pair of output-nullability promotion flags of `JoinHashTableItems`. -/
structure NullableFlags where
  left_to_nullable : Bool
  right_to_nullable : Bool
  deriving DecidableEq, Repr

/-- The flag assignment in `JoinHashTable::create`: RIGHT_SEMI / RIGHT_ANTI /
RIGHT_OUTER promote the left side, LEFT_SEMI / LEFT_ANTI /
NULL_AWARE_LEFT_ANTI / LEFT_OUTER promote the right side, FULL_OUTER
promotes both, everything else neither (both flags default to false). -/
def createNullableFlags (join_type : TJoinOp) : NullableFlags :=
  if join_type = .RIGHT_SEMI_JOIN ∨ join_type = .RIGHT_ANTI_JOIN ∨
     join_type = .RIGHT_OUTER_JOIN then
    { left_to_nullable := true, right_to_nullable := false }
  else if join_type = .LEFT_SEMI_JOIN ∨ join_type = .LEFT_ANTI_JOIN ∨
          join_type = .NULL_AWARE_LEFT_ANTI_JOIN ∨ join_type = .LEFT_OUTER_JOIN then
    { left_to_nullable := false, right_to_nullable := true }
  else if join_type = .FULL_OUTER_JOIN then
    { left_to_nullable := true, right_to_nullable := true }
  else
    { left_to_nullable := false, right_to_nullable := false }

/-- One build-side output column of the build chunk: either a plain data
column or a `NullableColumn` (data plus null indicators), with cell values
abstracted to `Int`. -/
inductive ColumnData where
  | plain (vals : List Int)
  | nullable (vals : List (Option Int))
  deriving DecidableEq, Repr

/-- Number of cells held by a column. -/
def ColumnData.size : ColumnData → Nat
  | .plain v => v.length
  | .nullable v => v.length

/-- The per-column body of `JoinHashTable::append_chunk`: append the first
`n` rows of the incoming column; when the destination is non-nullable but
the source is nullable, first upgrade the destination in place by wrapping
its cells with an all-zero null column. -/
def appendColumn (dest src : ColumnData) (n : Nat) : ColumnData :=
  match dest, src with
  | .nullable d, .nullable s => .nullable (d ++ s.take n)
  | .nullable d, .plain s => .nullable (d ++ (s.take n).map some)
  | .plain d, .nullable s => .nullable (d.map some ++ s.take n)
  | .plain d, .plain s => .plain (d ++ s.take n)

/-- An incoming build batch: its output columns (positionally matched with
the build chunk's columns) and its row count. -/
structure Chunk where
  columns : List ColumnData
  num_rows : Nat
  deriving DecidableEq, Repr

/-- A chunk is well formed when each of its columns holds exactly
`num_rows` cells. -/
def Chunk.wf (c : Chunk) : Prop :=
  ∀ col ∈ c.columns, col.size = c.num_rows

/-- The accumulated build side: the build chunk's output columns and the
running `row_count` of `JoinHashTableItems`. -/
structure BuildSideState where
  columns : List ColumnData
  row_count : Nat
  deriving DecidableEq, Repr

/-- The build-chunk initialization inside `JoinHashTable::create`: one
column per build slot, created nullable or not from the slot descriptor,
and seeded with a single default cell (`append_default` /
`append_default_not_null_value`) standing for the reserved row 0;
`row_count` starts at 0. -/
def createBuildSide (slot_nullable : List Bool) : BuildSideState :=
  { columns := slot_nullable.map fun nb =>
      if nb then ColumnData.nullable [some 0] else ColumnData.plain [0]
    row_count := 0 }

/-- `JoinHashTable::append_chunk`: extend every build column with the
batch's rows and bump `row_count` by the batch's row count. -/
def append_chunk (st : BuildSideState) (c : Chunk) : BuildSideState :=
  { columns := (st.columns.zip c.columns).map fun p => appendColumn p.1 p.2 c.num_rows
    row_count := st.row_count + c.num_rows }

/-- A build phase: the sequence of `append_chunk` calls before `build()`. -/
def appendChunks (st : BuildSideState) (cs : List Chunk) : BuildSideState :=
  cs.foldl append_chunk st

/-- The `build_match_index` initialization inside `JoinHashTable::build`:
for the four build-side-tracking join types the vector is resized to
`row_count + 1` filled with 0 and then entry 0 (the reserved sentinel row)
is set to 1; for every other join type it stays empty. -/
def buildMatchIndexAfterBuild (join_type : TJoinOp) (row_count : Nat) : List Nat :=
  if join_type = .RIGHT_OUTER_JOIN ∨ join_type = .FULL_OUTER_JOIN ∨
     join_type = .RIGHT_SEMI_JOIN ∨ join_type = .RIGHT_ANTI_JOIN then
    (List.replicate (row_count + 1) 0).set 0 1
  else
    []

/-- Outcome of `PartialRuntimeFilterMerger::add_partial_filters` as observed
by the build operator: an error status, or success with `value()` telling
whether this submission completed the expected contribution set. -/
inductive MergeOutcome where
  | err
  | incomplete
  | complete
  deriving DecidableEq, Repr

/-- Observable effects of `HashJoinBuildOperator::set_finishing`. -/
structure FinishingEffects where
  ht_built : Bool
  filters_published : Bool
  collector_set_in_hub : Bool
  probers_referenced : Bool
  probe_phase_entered : Bool
  deriving DecidableEq, Repr

/-- `HashJoinBuildOperator::set_finishing`: builds the hash table, submits
the partial runtime filters to the merger, publishes the merged filters and
installs the hub collector only when the submission returned OK with value
true, and unconditionally hands the table to the read-only probers and
enters the probe phase. -/
def set_finishing (merge_outcome : MergeOutcome) : FinishingEffects :=
  let published := match merge_outcome with
    | .complete => true
    | _ => false
  { ht_built := true
    filters_published := published
    collector_set_in_hub := published
    probers_referenced := true
    probe_phase_entered := true }

/-- One candidate entry of a probe output batch, as consumed by
`remove_duplicate_index`: the probe-side row id (`probe_index[i]`) paired
with the keep/drop byte (`filter[i]`). -/
abbrev SemiEntry := Nat × Nat

/-- `JoinHashTable::_remove_duplicate_index_for_left_semi_join` over one
batch: an accepted entry (`filter[i] == 1`) whose probe row was not yet
seen (`probe_match_index == 0`) marks the row seen; a later accepted entry
for a seen row has its keep byte cleared; non-accepted entries are left
untouched. Returns the updated `probe_match_index` and filter. -/
def remove_duplicate_index_for_left_semi_join (pmi : Nat → Nat) :
    List SemiEntry → (Nat → Nat) × List SemiEntry
  | [] => (pmi, [])
  | (p, f) :: rest =>
      if f = 1 then
        if pmi p = 0 then
          let r := remove_duplicate_index_for_left_semi_join (Function.update pmi p 1) rest
          (r.1, (p, 1) :: r.2)
        else
          let r := remove_duplicate_index_for_left_semi_join pmi rest
          (r.1, (p, 0) :: r.2)
      else
        let r := remove_duplicate_index_for_left_semi_join pmi rest
        (r.1, (p, f) :: r.2)

/-- The whole LEFT_SEMI probe phase: candidate batches processed in arrival
order, threading the persistent `probe_match_index` across batches. -/
def leftSemiProbePhase (pmi : Nat → Nat) :
    List (List SemiEntry) → (Nat → Nat) × List (List SemiEntry)
  | [] => (pmi, [])
  | b :: bs =>
      let r := remove_duplicate_index_for_left_semi_join pmi b
      let rr := leftSemiProbePhase r.1 bs
      (rr.1, r.2 :: rr.2)

/-- `JoinHashTable::_remove_duplicate_index_for_right_outer_join`: for each
accepted entry mark the build row (`build_index[i]`) as matched in
`build_match_index`; the filter is only read. Entries pair the build row id
with the keep byte. -/
def remove_duplicate_index_for_right_outer_join (bmi : Nat → Nat) :
    List SemiEntry → (Nat → Nat) × List SemiEntry
  | [] => (bmi, [])
  | (b, f) :: rest =>
      let bmi' := if f = 1 then Function.update bmi b 1 else bmi
      let r := remove_duplicate_index_for_right_outer_join bmi' rest
      (r.1, (b, f) :: r.2)

/-- `JoinHashTable::_remove_duplicate_index_for_right_anti_join`: textually
the same loop as the RIGHT_OUTER correction. -/
def remove_duplicate_index_for_right_anti_join (bmi : Nat → Nat) :
    List SemiEntry → (Nat → Nat) × List SemiEntry
  | [] => (bmi, [])
  | (b, f) :: rest =>
      let bmi' := if f = 1 then Function.update bmi b 1 else bmi
      let r := remove_duplicate_index_for_right_anti_join bmi' rest
      (r.1, (b, f) :: r.2)

/-- The chained hash index of `JoinHashTableItems`: `first` maps a bucket to
its head-of-chain row, `next` maps a row to its successor in the chain;
0 is the empty/terminator sentinel in both. Both arrays are modelled as
total functions (out-of-range cells keep their zero fill). -/
structure TableIndex where
  first : Nat → Nat
  next : Nat → Nat

/-- The index right after the `resize(..., 0)` calls in
`JoinHashTable::build`: both arrays all zero. -/
def emptyIndex : TableIndex :=
  { first := fun _ => 0, next := fun _ => 0 }

/-- The two linking assignments of the build loops, in source order:
`next[row] = first[bucket]; first[bucket] = row`. -/
def linkRow (t : TableIndex) (bucket row : Nat) : TableIndex :=
  { first := Function.update t.first bucket row
    next := Function.update t.next row (t.first bucket) }

/-- One key column as consumed by `construct_hash_table` / `lookup_init`:
its `is_null_safe_equal` flag, whether `is_nullable() && has_null()` holds
(i.e. whether its null column enters `null_columns`), and its per-row null
indicator data. -/
structure KeyColumn where
  null_safe_equal : Bool
  nullable_with_null : Bool
  is_null : Nat → Bool

/-- The `null_columns` set assembled by the column-preparation loop: the
null column of key `i` is collected iff the key is not null-safe and its
column is nullable with at least one null. -/
def nullColumnsOf (keys : List KeyColumn) : List KeyColumn :=
  keys.filter fun k => !k.null_safe_equal && k.nullable_with_null

/-- The `is_nulls[i]` accumulator of `_build_nullable_columns` /
`_probe_nullable_column`: the OR of the collected null columns at a row. -/
def isNullRow (keys : List KeyColumn) (row : Nat) : Bool :=
  (nullColumnsOf keys).any fun k => k.is_null row

/-- The row indices `start, start+1, ..., start+count-1` visited by one
build-loop call. -/
def rowsOf (start count : Nat) : List Nat :=
  (List.range count).map (start + ·)

/-- A per-row pass of a build loop over one chunk of rows. -/
def foldRows (g : TableIndex → Nat → TableIndex) (start count : Nat)
    (t : TableIndex) : TableIndex :=
  (rowsOf start count).foldl g t

/-- `SerializedJoinBuildFunc::_build_columns`: every row of the chunk is
hashed to its bucket (abstracted by `bucketOf`, a pure function of the
row's serialized key) and linked. The source's two loops (serialize+bucket,
then link) commute into one pass because bucket computation does not touch
`first`/`next`. -/
def build_columns (bucketOf : Nat → Nat) (start count : Nat)
    (t : TableIndex) : TableIndex :=
  foldRows (fun t r => linkRow t (bucketOf r) r) start count t

/-- `SerializedJoinBuildFunc::_build_nullable_columns`: identical, except a
row whose `is_nulls` byte is set is neither serialized nor linked. -/
def build_nullable_columns (nullRow : Nat → Bool) (bucketOf : Nat → Nat)
    (start count : Nat) (t : TableIndex) : TableIndex :=
  foldRows (fun t r => if nullRow r then t else linkRow t (bucketOf r) r) start count t

/-- The chunked driver loop shared by both branches of
`construct_hash_table`: `quo` full chunks starting at row 1, then the
remainder chunk. -/
def constructLoop (g : TableIndex → Nat → TableIndex) (chunkSize rowCount : Nat)
    (t : TableIndex) : TableIndex :=
  let quo := rowCount / chunkSize
  let rem := rowCount % chunkSize
  let t1 := (List.range quo).foldl
    (fun t i => foldRows g (1 + chunkSize * i) chunkSize t) t
  foldRows g (1 + chunkSize * quo) rem t1

/-- `SerializedJoinBuildFunc::construct_hash_table`: when no null column
was collected the plain build runs, otherwise the nullable build with the
OR of the collected null columns. Rows are processed in chunks of
`state->chunk_size()` starting at row index 1. -/
def construct_hash_table (keys : List KeyColumn) (bucketOf : Nat → Nat)
    (rowCount chunkSize : Nat) (t : TableIndex) : TableIndex :=
  if (nullColumnsOf keys).isEmpty then
    constructLoop (fun t r => linkRow t (bucketOf r) r) chunkSize rowCount t
  else
    constructLoop
      (fun t r => if isNullRow keys r then t else linkRow t (bucketOf r) r)
      chunkSize rowCount t

/-- The bucket chain read off the index: follow `next` from a cursor until
the 0 sentinel, with explicit fuel bounding the walk. -/
def chainFrom (nx : Nat → Nat) : Nat → Nat → List Nat
  | 0, _ => []
  | fuel + 1, cur => if cur = 0 then [] else cur :: chainFrom nx fuel (nx cur)

/-- `SerializedJoinProbeFunc::lookup_init` restricted to the initial chain
cursors it establishes: with no collected null column every probe row `i`
gets `first[bucket]`; otherwise a row with a set `is_nulls` byte gets
cursor 0 and the rest get `first[bucket]`. -/
def lookup_init (keys : List KeyColumn) (tableFirst : Nat → Nat)
    (bucketOf : Nat → Nat) (rowCount : Nat) : List Nat :=
  if (nullColumnsOf keys).isEmpty then
    (List.range rowCount).map fun i => tableFirst (bucketOf i)
  else
    (List.range rowCount).map fun i =>
      if isNullRow keys i then 0 else tableFirst (bucketOf i)

/-- Encoded width of one key in the packed multi-key layout: the type's
fixed width plus one null-indicator byte when the key is (effectively)
null-safe. -/
def encodedWidth (k : JoinKeyDesc) : Nat :=
  get_size_of_fixed_and_contiguous_type k.ptype + (if effNullSafe k then 1 else 0)

/-- The per-row body shared by both build loops: a row with a set null byte
is skipped, any other row is linked into its bucket's chain. -/
def buildStep (nullRow : Nat → Bool) (bucketOf : Nat → Nat)
    (t : TableIndex) (r : Nat) : TableIndex :=
  if nullRow r then t else linkRow t (bucketOf r) r

/-- Example key list for the chain-order witness: one non-null-safe,
null-free key. -/
def exBuildKeys : List KeyColumn :=
  [{ null_safe_equal := false, nullable_with_null := false,
     is_null := fun _ => false }]

/-- Example bucket function for the witnesses. -/
def exBucketOf : Nat → Nat := fun r => r % 2

/-- Example build-side key list for the null-exclusion witness: a
non-null-safe key that is NULL at row 1. -/
def exNullBuildKeys : List KeyColumn :=
  [{ null_safe_equal := false, nullable_with_null := true,
     is_null := fun r => r == 1 }]

/-- Example probe-side key list for the null-exclusion witness: a
non-null-safe key that is NULL at probe row 0. -/
def exNullProbeKeys : List KeyColumn :=
  [{ null_safe_equal := false, nullable_with_null := true,
     is_null := fun i => i == 0 }]

/-! ## Helper lemmas -/

lemma multiKeyTotalSize_eq_sum {keys : List JoinKeyDesc}
    (h : ∀ k ∈ keys, 0 < get_size_of_fixed_and_contiguous_type k.ptype) :
    multiKeyTotalSize keys = some ((keys.map encodedWidth).sum) := by
  induction keys with
  | nil => rfl
  | cons k ks ih =>
    have hk := h k (List.mem_cons_self k ks)
    have hks := ih fun k' hk' => h k' (List.mem_cons_of_mem _ hk')
    simp only [multiKeyTotalSize, hk, if_pos, List.map_cons, List.sum_cons, hks,
      Option.map_some', encodedWidth, Option.some.injEq]
    omega

lemma multiKeyTotalSize_eq_none {keys : List JoinKeyDesc} {k : JoinKeyDesc}
    (hk : k ∈ keys) (h : get_size_of_fixed_and_contiguous_type k.ptype = 0) :
    multiKeyTotalSize keys = none := by
  induction keys with
  | nil => cases hk
  | cons k' ks ih =>
    rcases List.mem_cons.mp hk with rfl | hmem
    · simp [multiKeyTotalSize, h]
    · by_cases hs : 0 < get_size_of_fixed_and_contiguous_type k'.ptype
      · simp [multiKeyTotalSize, hs, ih hmem]
      · simp [multiKeyTotalSize, hs]

lemma choose_eq_multi {keys : List JoinKeyDesc}
    (hmulti : 2 ≤ keys.length ∨ ∃ k, keys = [k] ∧ effNullSafe k = true) :
    choose_join_hash_map keys = multiKeyMapType keys := by
  match keys with
  | [] => rfl
  | [k] =>
    have hns : effNullSafe k = true := by
      rcases hmulti with h2 | ⟨k', hk', hns⟩
      · simp at h2
      · injection hk' with h1 _
        rw [h1]; exact hns
    simp [choose_join_hash_map, hns]
  | a :: b :: rest => rfl

/-! ## Claim theorems -/

/-- C7: the nullability-promotion flags set by `JoinHashTable::create` are
exactly: RIGHT_OUTER / RIGHT_SEMI / RIGHT_ANTI set `left_to_nullable`;
LEFT_OUTER / LEFT_SEMI / LEFT_ANTI / NULL_AWARE_LEFT_ANTI set
`right_to_nullable`; FULL_OUTER sets both; all other join types set
neither. -/
theorem create_sets_nullable_flags_exactly (jt : TJoinOp) :
    ((createNullableFlags jt).left_to_nullable = true ↔
      jt = .RIGHT_OUTER_JOIN ∨ jt = .RIGHT_SEMI_JOIN ∨ jt = .RIGHT_ANTI_JOIN ∨
      jt = .FULL_OUTER_JOIN) ∧
    ((createNullableFlags jt).right_to_nullable = true ↔
      jt = .LEFT_OUTER_JOIN ∨ jt = .LEFT_SEMI_JOIN ∨ jt = .LEFT_ANTI_JOIN ∨
      jt = .NULL_AWARE_LEFT_ANTI_JOIN ∨ jt = .FULL_OUTER_JOIN) := by
  cases jt <;> exact ⟨by decide, by decide⟩

/-- C8: `set_finishing` publishes the merged runtime filters to the hub iff
the merger's `add_partial_filters` returned success with a complete
contribution set, and the probe-phase handoff happens regardless of the
merge outcome. -/
theorem set_finishing_publish_iff_complete (r : MergeOutcome) :
    ((set_finishing r).filters_published = true ↔ r = .complete) ∧
    ((set_finishing r).collector_set_in_hub = true ↔ r = .complete) ∧
    (set_finishing r).probers_referenced = true ∧
    (set_finishing r).probe_phase_entered = true := by
  cases r <;> exact ⟨by decide, by decide, by decide, by decide⟩

/-- C5, as stated: false — `build()` sets entry 0 of `build_match_index` to
1 right after the zero-filling resize, so not every entry is zero. Shown at
join type RIGHT_OUTER with row count 2. -/
theorem build_match_index_all_zero_counterexample :
    ¬ ((buildMatchIndexAfterBuild .RIGHT_OUTER_JOIN 2).length = 2 + 1 ∧
       ∀ x ∈ buildMatchIndexAfterBuild .RIGHT_OUTER_JOIN 2, x = 0) := by
  decide

/-- C5 amended: for RIGHT_OUTER / FULL_OUTER / RIGHT_SEMI / RIGHT_ANTI,
`build()` sizes `build_match_index` to row count plus one, zero-fills it,
and then sets entry 0 (the reserved sentinel row) to 1, so every entry at a
positive index is zero and entry 0 is one. -/
theorem build_match_index_after_build_spec (jt : TJoinOp) (rc : Nat)
    (h : jt = .RIGHT_OUTER_JOIN ∨ jt = .FULL_OUTER_JOIN ∨
         jt = .RIGHT_SEMI_JOIN ∨ jt = .RIGHT_ANTI_JOIN) :
    (buildMatchIndexAfterBuild jt rc).length = rc + 1 ∧
    (buildMatchIndexAfterBuild jt rc)[0]? = some 1 ∧
    ∀ i, 0 < i → i < rc + 1 → (buildMatchIndexAfterBuild jt rc)[i]? = some 0 := by
  have hb : buildMatchIndexAfterBuild jt rc = (List.replicate (rc + 1) 0).set 0 1 := by
    unfold buildMatchIndexAfterBuild
    rcases h with h | h | h | h <;> subst h <;> simp
  have hrep : (List.replicate (rc + 1) 0).set 0 1 = 1 :: List.replicate rc 0 := by
    rw [List.replicate_succ]
    rfl
  rw [hb, hrep]
  refine ⟨by simp, by simp, ?_⟩
  intro i hi hilt
  match i, hi with
  | j + 1, _ =>
    simp only [List.getElem?_cons_succ]
    rw [List.getElem?_replicate]
    simp
    omega

/-- Witness for C5's amended theorem at RIGHT_OUTER with row count 1. -/
theorem build_match_index_after_build_spec_witness :
    (buildMatchIndexAfterBuild .RIGHT_OUTER_JOIN 1).length = 1 + 1 ∧
    (buildMatchIndexAfterBuild .RIGHT_OUTER_JOIN 1)[0]? = some 1 ∧
    (buildMatchIndexAfterBuild .RIGHT_OUTER_JOIN 1)[1]? = some 0 :=
  ⟨(build_match_index_after_build_spec .RIGHT_OUTER_JOIN 1 (Or.inl rfl)).1,
   (build_match_index_after_build_spec .RIGHT_OUTER_JOIN 1 (Or.inl rfl)).2.1,
   (build_match_index_after_build_spec .RIGHT_OUTER_JOIN 1 (Or.inl rfl)).2.2 1
     (by decide) (by decide)⟩

/-- C4: in the multi-key / null-safe path, when every key type has a fixed
contiguous width the selector picks the packed layout by the sum of the
keys' fixed encoded widths — fixed32 up to 4 bytes, fixed64 up to 8,
fixed128 up to 16, slice beyond 16 — and any key type without a fixed
contiguous width forces the slice layout. -/
theorem choose_join_hash_map_packed_layout (keys : List JoinKeyDesc)
    (hmulti : 2 ≤ keys.length ∨ ∃ k, keys = [k] ∧ effNullSafe k = true) :
    ((∀ k ∈ keys, 0 < get_size_of_fixed_and_contiguous_type k.ptype) →
      choose_join_hash_map keys =
        (if (keys.map encodedWidth).sum ≤ 4 then .fixed32
         else if (keys.map encodedWidth).sum ≤ 8 then .fixed64
         else if (keys.map encodedWidth).sum ≤ 16 then .fixed128
         else .slice)) ∧
    (∀ k ∈ keys, get_size_of_fixed_and_contiguous_type k.ptype = 0 →
      choose_join_hash_map keys = .slice) := by
  rw [choose_eq_multi hmulti]
  constructor
  · intro hall
    unfold multiKeyMapType
    rw [multiKeyTotalSize_eq_sum hall]
  · intro k hk h0
    unfold multiKeyMapType
    rw [multiKeyTotalSize_eq_none hk h0]

/-- Witness for C4: two non-null-safe fixed-width keys of widths 4 and 8
(total 12) select the fixed128 layout. -/
theorem choose_join_hash_map_packed_layout_witness :
    choose_join_hash_map
      [⟨.TYPE_INT, false, false⟩, ⟨.TYPE_BIGINT, false, false⟩] = .fixed128 :=
  ((choose_join_hash_map_packed_layout
      [⟨.TYPE_INT, false, false⟩, ⟨.TYPE_BIGINT, false, false⟩]
      (Or.inl (by decide))).1 (by decide)).trans (by decide)

/-- C10: exactly BOOLEAN, TINYINT, SMALLINT, INT, BIGINT, FLOAT, DOUBLE,
DATE and DATETIME have a positive fixed contiguous width; in the multi-key
or null-safe path any key of another type (LARGEINT, DECIMALV2,
DECIMAL32/64/128, CHAR, VARCHAR, ...) forces the slice layout for the
whole join; and the packed total sums the fixed widths with one extra byte
per (effective) null-safe key. -/
theorem fixed_width_classification :
    (∀ t : PrimitiveType,
      0 < get_size_of_fixed_and_contiguous_type t ↔
        (t = .TYPE_BOOLEAN ∨ t = .TYPE_TINYINT ∨ t = .TYPE_SMALLINT ∨
         t = .TYPE_INT ∨ t = .TYPE_BIGINT ∨ t = .TYPE_FLOAT ∨ t = .TYPE_DOUBLE ∨
         t = .TYPE_DATE ∨ t = .TYPE_DATETIME)) ∧
    (∀ keys : List JoinKeyDesc,
      (2 ≤ keys.length ∨ ∃ k, keys = [k] ∧ effNullSafe k = true) →
      ∀ k ∈ keys, get_size_of_fixed_and_contiguous_type k.ptype = 0 →
        choose_join_hash_map keys = .slice) ∧
    (∀ keys : List JoinKeyDesc,
      (∀ k ∈ keys, 0 < get_size_of_fixed_and_contiguous_type k.ptype) →
      multiKeyTotalSize keys =
        some ((keys.map fun k =>
          get_size_of_fixed_and_contiguous_type k.ptype +
            (if effNullSafe k then 1 else 0)).sum)) := by
  refine ⟨?_, ?_, ?_⟩
  · intro t
    cases t <;> decide
  · intro keys hmulti k hk h0
    rw [choose_eq_multi hmulti]
    unfold multiKeyMapType
    rw [multiKeyTotalSize_eq_none hk h0]
  · intro keys hall
    exact multiKeyTotalSize_eq_sum hall

/-- Witness for C10: a VARCHAR key among two keys forces the slice
layout. -/
theorem fixed_width_classification_witness :
    choose_join_hash_map
      [⟨.TYPE_VARCHAR, false, false⟩, ⟨.TYPE_INT, false, false⟩] = .slice :=
  fixed_width_classification.2.1
    [⟨.TYPE_VARCHAR, false, false⟩, ⟨.TYPE_INT, false, false⟩]
    (Or.inl (by decide)) ⟨.TYPE_VARCHAR, false, false⟩ (by decide) (by decide)

lemma size_appendColumn (d s : ColumnData) (n : Nat) (hs : s.size = n) :
    (appendColumn d s n).size = d.size + n := by
  cases d <;> cases s <;>
    simp [appendColumn, ColumnData.size] at hs ⊢ <;> omega

lemma appendChunks_row_count (cs : List Chunk) : ∀ st : BuildSideState,
    (appendChunks st cs).row_count = st.row_count + (cs.map Chunk.num_rows).sum := by
  induction cs with
  | nil => intro st; simp [appendChunks]
  | cons c cs ih =>
    intro st
    have : appendChunks st (c :: cs) = appendChunks (append_chunk st c) cs := rfl
    rw [this, ih]
    simp [append_chunk]
    omega

lemma append_chunk_columns (st : BuildSideState) (c : Chunk)
    (hlen : st.columns.length ≤ c.columns.length) (hwf : c.wf)
    (hinv : ∀ col ∈ st.columns, col.size = st.row_count + 1) :
    (append_chunk st c).columns.length = st.columns.length ∧
    ∀ col ∈ (append_chunk st c).columns, col.size = (append_chunk st c).row_count + 1 := by
  constructor
  · simp only [append_chunk, List.length_map, List.length_zip]
    omega
  · intro col hcol
    simp only [append_chunk, List.mem_map] at hcol
    obtain ⟨p, hp, rfl⟩ := hcol
    have hmem := List.of_mem_zip hp
    have h1 := hinv p.1 hmem.1
    have h2 := hwf p.2 hmem.2
    rw [size_appendColumn _ _ _ h2, h1]
    simp only [append_chunk]
    omega

lemma appendChunks_invariant (cs : List Chunk) : ∀ st : BuildSideState,
    (∀ c ∈ cs, c.wf) → (∀ c ∈ cs, st.columns.length ≤ c.columns.length) →
    (∀ col ∈ st.columns, col.size = st.row_count + 1) →
    ((appendChunks st cs).columns.length = st.columns.length ∧
     ∀ col ∈ (appendChunks st cs).columns,
       col.size = (appendChunks st cs).row_count + 1) := by
  induction cs with
  | nil => intro st _ _ hinv; exact ⟨rfl, hinv⟩
  | cons c cs ih =>
    intro st hwf hlen hinv
    have hstep := append_chunk_columns st c
      (hlen c (List.mem_cons_self c cs)) (hwf c (List.mem_cons_self c cs)) hinv
    have hrest := ih (append_chunk st c)
      (fun c' hc' => hwf c' (List.mem_cons_of_mem _ hc'))
      (fun c' hc' => hstep.1 ▸ hlen c' (List.mem_cons_of_mem _ hc'))
      hstep.2
    have heq : appendChunks st (c :: cs) = appendChunks (append_chunk st c) cs := rfl
    rw [heq]
    exact ⟨hrest.1.trans hstep.1, hrest.2⟩

/-- C3, as stated: false — every build column carries one extra cell (the
default cell for the reserved row 0 appended at table creation), so after
appending one single-row batch a column holds 2 cells while the row count
is 1. -/
theorem append_column_length_counterexample :
    ¬ (∀ col ∈ (appendChunks (createBuildSide [false])
          [Chunk.mk [ColumnData.plain [7]] 1]).columns,
        col.size = (appendChunks (createBuildSide [false])
          [Chunk.mk [ColumnData.plain [7]] 1]).row_count) := by
  decide

/-- C3 amended: for batches B1..Bn appended before `build()`, the row count
after the last append equals the sum of the batch row counts, and every
build-side output column holds exactly that many cells plus one (the
reserved row 0 seeded at creation). -/
theorem append_row_count_and_column_sizes (slot_nullable : List Bool)
    (cs : List Chunk) (hwf : ∀ c ∈ cs, c.wf)
    (hcols : ∀ c ∈ cs, slot_nullable.length ≤ c.columns.length) :
    (appendChunks (createBuildSide slot_nullable) cs).row_count =
      (cs.map Chunk.num_rows).sum ∧
    ∀ col ∈ (appendChunks (createBuildSide slot_nullable) cs).columns,
      col.size = (cs.map Chunk.num_rows).sum + 1 := by
  have hrc := appendChunks_row_count cs (createBuildSide slot_nullable)
  have hbase : ∀ col ∈ (createBuildSide slot_nullable).columns,
      col.size = (createBuildSide slot_nullable).row_count + 1 := by
    intro col hcol
    simp only [createBuildSide, List.mem_map] at hcol
    obtain ⟨nb, _, rfl⟩ := hcol
    cases nb <;> simp [ColumnData.size, createBuildSide]
  have hlen : ∀ c ∈ cs,
      (createBuildSide slot_nullable).columns.length ≤ c.columns.length := by
    intro c hc
    simpa [createBuildSide] using hcols c hc
  have h := appendChunks_invariant cs (createBuildSide slot_nullable) hwf hlen hbase
  have hrc0 : (createBuildSide slot_nullable).row_count = 0 := rfl
  refine ⟨by rw [hrc, hrc0]; omega, ?_⟩
  intro col hcol
  rw [h.2 col hcol, hrc, hrc0]
  omega

/-- Witness for C3's amended theorem: one single-row batch gives row count 1
and a column of 2 cells. -/
theorem append_row_count_and_column_sizes_witness :
    (appendChunks (createBuildSide [false])
        [Chunk.mk [ColumnData.plain [7]] 1]).row_count =
      ([Chunk.mk [ColumnData.plain [7]] 1].map Chunk.num_rows).sum ∧
    (ColumnData.plain [0, 7]).size =
      ([Chunk.mk [ColumnData.plain [7]] 1].map Chunk.num_rows).sum + 1 :=
  ⟨(append_row_count_and_column_sizes [false] [Chunk.mk [ColumnData.plain [7]] 1]
      (by simp [Chunk.wf, ColumnData.size]) (by decide)).1,
   (append_row_count_and_column_sizes [false] [Chunk.mk [ColumnData.plain [7]] 1]
      (by simp [Chunk.wf, ColumnData.size]) (by decide)).2
     (ColumnData.plain [0, 7]) (by decide)⟩

lemma right_outer_filter_unchanged (entries : List SemiEntry) : ∀ bmi,
    (remove_duplicate_index_for_right_outer_join bmi entries).2 = entries := by
  induction entries with
  | nil => intro bmi; rfl
  | cons e rest ih =>
    intro bmi
    obtain ⟨b, f⟩ := e
    simp [remove_duplicate_index_for_right_outer_join, ih]

lemma right_outer_bmi_characterization (entries : List SemiEntry) : ∀ bmi q,
    (remove_duplicate_index_for_right_outer_join bmi entries).1 q =
      if entries.any (fun e => e.2 == 1 && e.1 == q) then 1 else bmi q := by
  induction entries with
  | nil => intro bmi q; rfl
  | cons e rest ih =>
    intro bmi q
    obtain ⟨b, f⟩ := e
    have hrec : (remove_duplicate_index_for_right_outer_join bmi ((b, f) :: rest)).1 =
        (remove_duplicate_index_for_right_outer_join
          (if f = 1 then Function.update bmi b 1 else bmi) rest).1 := rfl
    rw [hrec, ih, List.any_cons]
    by_cases hf : f = 1
    · subst hf
      by_cases hb : b = q
      · subst hb
        cases hA : rest.any (fun e => e.2 == 1 && e.1 == b) <;>
          simp [hA, Function.update_apply]
      · have hqb : ¬ q = b := fun hh => hb hh.symm
        have hbq : ((b : Nat) == q) = false := by simp [hb]
        cases hA : rest.any (fun e => e.2 == 1 && e.1 == q) <;>
          simp [hA, hbq, Function.update_apply, hqb]
    · have hf1 : ((f : Nat) == 1) = false := by simp [hf]
      cases hA : rest.any (fun e => e.2 == 1 && e.1 == q) <;>
        simp [hA, hf1, hf]

lemma right_outer_eq_right_anti (entries : List SemiEntry) : ∀ bmi,
    remove_duplicate_index_for_right_outer_join bmi entries =
      remove_duplicate_index_for_right_anti_join bmi entries := by
  induction entries with
  | nil => intro bmi; rfl
  | cons e rest ih =>
    intro bmi
    obtain ⟨b, f⟩ := e
    simp [remove_duplicate_index_for_right_outer_join,
      remove_duplicate_index_for_right_anti_join, ih]

/-- C9: the RIGHT_OUTER and RIGHT_ANTI duplicate-removal corrections leave
the keep/drop vector exactly as given, their only state update is setting
the `build_match_index` entry of every accepted build row to 1, and the two
corrections perform identical state updates. -/
theorem right_outer_anti_corrections_frame (bmi : Nat → Nat)
    (entries : List SemiEntry) :
    (remove_duplicate_index_for_right_outer_join bmi entries).2 = entries ∧
    (remove_duplicate_index_for_right_anti_join bmi entries).2 = entries ∧
    (∀ q, (remove_duplicate_index_for_right_outer_join bmi entries).1 q =
      if entries.any (fun e => e.2 == 1 && e.1 == q) then 1 else bmi q) ∧
    remove_duplicate_index_for_right_outer_join bmi entries =
      remove_duplicate_index_for_right_anti_join bmi entries := by
  refine ⟨right_outer_filter_unchanged entries bmi, ?_,
    fun q => right_outer_bmi_characterization entries bmi q,
    right_outer_eq_right_anti entries bmi⟩
  rw [← right_outer_eq_right_anti entries bmi]
  exact right_outer_filter_unchanged entries bmi

lemma left_semi_append (a : List SemiEntry) : ∀ (pmi : Nat → Nat) (b : List SemiEntry),
    remove_duplicate_index_for_left_semi_join pmi (a ++ b) =
      ((remove_duplicate_index_for_left_semi_join
          (remove_duplicate_index_for_left_semi_join pmi a).1 b).1,
       (remove_duplicate_index_for_left_semi_join pmi a).2 ++
         (remove_duplicate_index_for_left_semi_join
           (remove_duplicate_index_for_left_semi_join pmi a).1 b).2) := by
  induction a with
  | nil => intro pmi b; simp [remove_duplicate_index_for_left_semi_join]
  | cons e rest ih =>
    intro pmi b
    obtain ⟨p, f⟩ := e
    by_cases hf : f = 1
    · subst hf
      by_cases hp : pmi p = 0
      · simp [remove_duplicate_index_for_left_semi_join, hp, ih]
      · simp [remove_duplicate_index_for_left_semi_join, hp, ih]
    · simp [remove_duplicate_index_for_left_semi_join, hf, ih]

lemma leftSemiProbePhase_flatten (bs : List (List SemiEntry)) : ∀ pmi,
    (leftSemiProbePhase pmi bs).1 =
      (remove_duplicate_index_for_left_semi_join pmi bs.flatten).1 ∧
    ((leftSemiProbePhase pmi bs).2).flatten =
      (remove_duplicate_index_for_left_semi_join pmi bs.flatten).2 := by
  induction bs with
  | nil => intro pmi; exact ⟨rfl, rfl⟩
  | cons b bs ih =>
    intro pmi
    constructor
    · simp only [leftSemiProbePhase, List.flatten_cons,
        left_semi_append b pmi bs.flatten]
      exact (ih _).1
    · simp only [leftSemiProbePhase, List.flatten_cons,
        left_semi_append b pmi bs.flatten]
      rw [(ih _).2]

lemma left_semi_get_characterization (entries : List SemiEntry) :
    ∀ (pmi : Nat → Nat) (k p f : Nat), entries[k]? = some (p, f) →
      ((remove_duplicate_index_for_left_semi_join pmi entries).2)[k]? =
        some (p, if f = 1 then
            (if (pmi p == 0) && !((entries.take k).any
                (fun e => e.1 == p && e.2 == 1)) then 1 else 0)
          else f) := by
  induction entries with
  | nil => intro pmi k p f h; simp at h
  | cons e rest ih =>
    intro pmi k p f h
    obtain ⟨q, g⟩ := e
    match k with
    | 0 =>
      rw [List.getElem?_cons_zero] at h
      simp only [Option.some.injEq, Prod.mk.injEq] at h
      obtain ⟨h1, h2⟩ := h
      rw [← h1, ← h2]
      by_cases hg : g = 1
      · subst hg
        by_cases hq : pmi q = 0
        · have hq' : ((pmi q == 0) : Bool) = true := by simp [hq]
          simp [remove_duplicate_index_for_left_semi_join, hq, hq']
        · have hq' : ((pmi q == 0) : Bool) = false := by simp [hq]
          simp [remove_duplicate_index_for_left_semi_join, hq, hq']
      · simp [remove_duplicate_index_for_left_semi_join, hg]
    | k + 1 =>
      rw [List.getElem?_cons_succ] at h
      by_cases hg : g = 1
      · subst hg
        by_cases hq : pmi q = 0
        · have hout : (remove_duplicate_index_for_left_semi_join pmi
              ((q, 1) :: rest)).2 = (q, 1) ::
              (remove_duplicate_index_for_left_semi_join
                (Function.update pmi q 1) rest).2 := by
            simp [remove_duplicate_index_for_left_semi_join, hq]
          rw [hout, List.getElem?_cons_succ,
            ih (Function.update pmi q 1) k p f h]
          by_cases hpq : p = q
          · subst hpq
            have h1 : ((Function.update pmi p 1 p == 0) : Bool) = false := by
              simp [Function.update_apply]
            simp only [List.take_succ_cons, List.any_cons, h1, beq_self_eq_true,
              Bool.true_and, Bool.true_or, Bool.not_true, Bool.and_false,
              Bool.false_and]
          · have h1 : Function.update pmi q 1 p = pmi p := by
              simp [Function.update_apply, hpq]
            have hqp : ((q : Nat) == p) = false := by
              have hne : ¬ q = p := fun hh => hpq hh.symm
              simp [hne]
            simp only [List.take_succ_cons, List.any_cons, h1, hqp,
              beq_self_eq_true, Bool.true_and, Bool.and_true, Bool.false_and,
              Bool.false_or]
        · have hout : (remove_duplicate_index_for_left_semi_join pmi
              ((q, 1) :: rest)).2 = (q, 0) ::
              (remove_duplicate_index_for_left_semi_join pmi rest).2 := by
            simp [remove_duplicate_index_for_left_semi_join, hq]
          rw [hout, List.getElem?_cons_succ, ih pmi k p f h]
          by_cases hpq : p = q
          · subst hpq
            have h1 : ((pmi p == 0) : Bool) = false := by simp [hq]
            simp only [List.take_succ_cons, List.any_cons, h1, Bool.false_and]
          · have hqp : ((q : Nat) == p) = false := by
              have hne : ¬ q = p := fun hh => hpq hh.symm
              simp [hne]
            simp only [List.take_succ_cons, List.any_cons, hqp,
              beq_self_eq_true, Bool.and_true, Bool.false_and, Bool.false_or]
      · have hg1 : ((g : Nat) == 1) = false := by simp [hg]
        have hout : (remove_duplicate_index_for_left_semi_join pmi
            ((q, g) :: rest)).2 = (q, g) ::
            (remove_duplicate_index_for_left_semi_join pmi rest).2 := by
          simp [remove_duplicate_index_for_left_semi_join, hg]
        rw [hout, List.getElem?_cons_succ, ih pmi k p f h]
        simp only [List.take_succ_cons, List.any_cons, hg1, Bool.and_false,
          Bool.false_or]

lemma left_semi_count_le (entries : List SemiEntry) : ∀ (pmi : Nat → Nat) (p : Nat),
    ((remove_duplicate_index_for_left_semi_join pmi entries).2).countP
        (fun e => e.1 == p && e.2 == 1) ≤ (if pmi p = 0 then 1 else 0) := by
  induction entries with
  | nil =>
    intro pmi p
    simp only [remove_duplicate_index_for_left_semi_join, List.countP_nil]
    omega
  | cons e rest ih =>
    intro pmi p
    obtain ⟨q, g⟩ := e
    by_cases hg : g = 1
    · subst hg
      by_cases hq : pmi q = 0
      · have hout : (remove_duplicate_index_for_left_semi_join pmi
            ((q, 1) :: rest)).2 = (q, 1) ::
            (remove_duplicate_index_for_left_semi_join
              (Function.update pmi q 1) rest).2 := by
          simp [remove_duplicate_index_for_left_semi_join, hq]
        rw [hout]
        simp only [List.countP_cons]
        by_cases hpq : q = p
        · subst hpq
          have hupd : Function.update pmi q 1 q = 1 := by simp
          have hle := ih (Function.update pmi q 1) q
          rw [hupd] at hle
          simp only [if_neg (by omega : ¬ (1 : Nat) = 0)] at hle
          have hhead : ((q : Nat) == q && (1 : Nat) == 1) = true := by simp
          simp only [hhead, if_pos, hq, eq_self_iff_true, if_true]
          omega
        · have hupd : Function.update pmi q 1 p = pmi p := by
            have hne : ¬ p = q := fun hh => hpq hh.symm
            simp [Function.update_apply, hne]
          have hle := ih (Function.update pmi q 1) p
          rw [hupd] at hle
          have hhead : ((q : Nat) == p && (1 : Nat) == 1) = false := by
            simp [hpq]
          simp only [hhead, Bool.false_eq_true, if_false]
          omega
      · have hout : (remove_duplicate_index_for_left_semi_join pmi
            ((q, 1) :: rest)).2 = (q, 0) ::
            (remove_duplicate_index_for_left_semi_join pmi rest).2 := by
          simp [remove_duplicate_index_for_left_semi_join, hq]
        rw [hout]
        simp only [List.countP_cons]
        have hhead : ((q : Nat) == p && (0 : Nat) == 1) = false := by simp
        have hle := ih pmi p
        simp only [hhead, Bool.false_eq_true, if_false]
        omega
    · have hout : (remove_duplicate_index_for_left_semi_join pmi
          ((q, g) :: rest)).2 = (q, g) ::
          (remove_duplicate_index_for_left_semi_join pmi rest).2 := by
        simp [remove_duplicate_index_for_left_semi_join, hg]
      rw [hout]
      simp only [List.countP_cons]
      have hhead : ((q : Nat) == p && (g : Nat) == 1) = false := by simp [hg]
      have hle := ih pmi p
      simp only [hhead, Bool.false_eq_true, if_false]
      omega

/-- C2: across the whole LEFT_SEMI probe phase, with `probe_match_index`
starting all-zero and persisting across batches, at most one accepted
candidate per probe row keeps its flag: the first accepted entry for a
probe row survives and every later accepted entry for the same row has its
keep byte cleared. -/
theorem left_semi_keeps_at_most_first_match (batches : List (List SemiEntry)) :
    (∀ p : Nat,
      ((leftSemiProbePhase (fun _ => 0) batches).2).flatten.countP
        (fun e => e.1 == p && e.2 == 1) ≤ 1) ∧
    (∀ k p f : Nat, batches.flatten[k]? = some (p, f) →
      ((leftSemiProbePhase (fun _ => 0) batches).2).flatten[k]? =
        some (p, if f = 1 then
            (if (batches.flatten.take k).any
                (fun e => e.1 == p && e.2 == 1) then 0 else 1)
          else f)) := by
  have hflat := leftSemiProbePhase_flatten batches (fun _ => 0)
  constructor
  · intro p
    rw [hflat.2]
    have := left_semi_count_le batches.flatten (fun _ => 0) p
    simpa using this
  · intro k p f h
    rw [hflat.2]
    rw [left_semi_get_characterization batches.flatten (fun _ => 0) k p f h]
    by_cases hf : f = 1
    · by_cases hA : (batches.flatten.take k).any
          (fun e => e.1 == p && e.2 == 1) = true
      · simp [hf, hA]
      · simp [hf, hA]
    · simp [hf]

/-- Witness for C2: two accepted candidates for probe row 5 across two
batches; the second one has its keep byte cleared. -/
theorem left_semi_keeps_at_most_first_match_witness :
    ((leftSemiProbePhase (fun _ => 0) [[(5, 1)], [(5, 1), (6, 2)]]).2).flatten[1]? =
      some (5, 0) := by
  have h := (left_semi_keeps_at_most_first_match [[(5, 1)], [(5, 1), (6, 2)]]).2
    1 5 1 (by decide)
  simpa using h

lemma rowsOf_succ (a n : Nat) : rowsOf a (n + 1) = rowsOf a n ++ [a + n] := by
  unfold rowsOf
  rw [List.range_succ, List.map_append]
  rfl

lemma mem_rowsOf {a c r : Nat} : r ∈ rowsOf a c ↔ a ≤ r ∧ r < a + c := by
  unfold rowsOf
  simp only [List.mem_map, List.mem_range]
  constructor
  · rintro ⟨i, hi, rfl⟩
    omega
  · rintro ⟨h1, h2⟩
    exact ⟨r - a, by omega, by omega⟩

lemma rowsOf_append (a m k : Nat) :
    rowsOf a m ++ rowsOf (a + m) k = rowsOf a (m + k) := by
  unfold rowsOf
  rw [List.range_add, List.map_append, List.map_map]
  congr 1
  apply List.map_congr_left
  intro i _
  simp only [Function.comp_apply]
  omega

lemma foldRows_append (g : TableIndex → Nat → TableIndex) (a m k : Nat)
    (t : TableIndex) :
    foldRows g (a + m) k (foldRows g a m t) = foldRows g a (m + k) t := by
  unfold foldRows
  rw [← rowsOf_append, List.foldl_append]

lemma constructLoop_eq_foldRows (g : TableIndex → Nat → TableIndex)
    (chunkSize rowCount : Nat) (t : TableIndex) :
    constructLoop g chunkSize rowCount t = foldRows g 1 rowCount t := by
  have hchunks : ∀ (q : Nat) (t : TableIndex),
      (List.range q).foldl (fun t i => foldRows g (1 + chunkSize * i) chunkSize t) t =
        foldRows g 1 (chunkSize * q) t := by
    intro q
    induction q with
    | zero => intro t; simp [foldRows, rowsOf]
    | succ n ihq =>
      intro t
      rw [List.range_succ, List.foldl_append]
      simp only [List.foldl_cons, List.foldl_nil]
      rw [ihq, foldRows_append]
      congr 1
  simp only [constructLoop]
  rw [hchunks, foldRows_append]
  congr 1
  exact Nat.div_add_mod rowCount chunkSize

lemma construct_eq_foldRows (keys : List KeyColumn) (bucketOf : Nat → Nat)
    (rowCount chunkSize : Nat) (t : TableIndex) :
    construct_hash_table keys bucketOf rowCount chunkSize t =
      foldRows (buildStep (isNullRow keys) bucketOf) 1 rowCount t := by
  unfold construct_hash_table
  by_cases he : (nullColumnsOf keys).isEmpty
  · rw [if_pos he]
    have hnil : nullColumnsOf keys = [] := by
      cases hx : nullColumnsOf keys
      · rfl
      · rw [hx] at he; exact absurd he (by simp)
    have hfalse : ∀ r, isNullRow keys r = false := by
      intro r
      unfold isNullRow
      rw [hnil]
      rfl
    have hg : (fun (t : TableIndex) r => linkRow t (bucketOf r) r) =
        buildStep (isNullRow keys) bucketOf := by
      funext t r
      unfold buildStep
      rw [hfalse r]
      simp
    rw [constructLoop_eq_foldRows, hg]
  · rw [if_neg he]
    exact constructLoop_eq_foldRows _ _ _ _

lemma chainFrom_zero (nx : Nat → Nat) (fuel : Nat) : chainFrom nx fuel 0 = [] := by
  cases fuel <;> simp [chainFrom]

lemma chainFrom_update_not_mem (nx : Nat → Nat) (m v : Nat) :
    ∀ (fuel cur : Nat), m ∉ chainFrom nx fuel cur →
      chainFrom (Function.update nx m v) fuel cur = chainFrom nx fuel cur := by
  intro fuel
  induction fuel with
  | zero => intro cur _; rfl
  | succ n ih =>
    intro cur h
    by_cases hc : cur = 0
    · subst hc
      simp [chainFrom]
    · rw [chainFrom, if_neg hc] at h
      have hmem : m ≠ cur ∧ m ∉ chainFrom nx n (nx cur) :=
        ⟨fun hh => h (hh ▸ List.mem_cons_self _ _),
         fun hh => h (List.mem_cons_of_mem _ hh)⟩
      have hcm : cur ≠ m := fun hh => hmem.1 hh.symm
      simp only [chainFrom, if_neg hc]
      rw [Function.update_noteq hcm, ih (nx cur) hmem.2]

lemma not_mem_chainFrom (nx : Nat → Nat) (r : Nat) (hnx : ∀ j, nx j ≠ r) :
    ∀ (fuel cur : Nat), cur ≠ r → r ∉ chainFrom nx fuel cur := by
  intro fuel
  induction fuel with
  | zero => intro cur _; simp [chainFrom]
  | succ n ih =>
    intro cur hc
    by_cases h0 : cur = 0
    · subst h0
      simp [chainFrom]
    · simp only [chainFrom, if_neg h0]
      intro hmem
      rcases List.mem_cons.mp hmem with rfl | hmem'
      · exact hc rfl
      · exact ih (nx cur) (hnx cur) hmem'

lemma build_not_linked (nullRow : Nat → Bool) (bucketOf : Nat → Nat) (r : Nat)
    (hnr : nullRow r = true) :
    ∀ (rows : List Nat) (t : TableIndex),
      (∀ b, t.first b ≠ r) → (∀ j, t.next j ≠ r) →
      (∀ b, (rows.foldl (buildStep nullRow bucketOf) t).first b ≠ r) ∧
      (∀ j, (rows.foldl (buildStep nullRow bucketOf) t).next j ≠ r) := by
  intro rows
  induction rows with
  | nil => intro t h1 h2; exact ⟨h1, h2⟩
  | cons row rows ih =>
    intro t h1 h2
    rw [List.foldl_cons]
    by_cases hn : nullRow row = true
    · have hstep : buildStep nullRow bucketOf t row = t := by
        unfold buildStep
        rw [if_pos hn]
      rw [hstep]
      exact ih t h1 h2
    · have hrow : row ≠ r := fun hh => hn (hh ▸ hnr)
      have hstep : buildStep nullRow bucketOf t row =
          linkRow t (bucketOf row) row := by
        unfold buildStep
        rw [if_neg hn]
      rw [hstep]
      apply ih
      · intro b
        show (Function.update t.first (bucketOf row) row) b ≠ r
        rcases eq_or_ne b (bucketOf row) with hb | hb
        · subst hb
          rw [Function.update_same]
          exact hrow
        · rw [Function.update_noteq hb]
          exact h1 b
      · intro j
        show (Function.update t.next row (t.first (bucketOf row))) j ≠ r
        rcases eq_or_ne j row with hj | hj
        · subst hj
          rw [Function.update_same]
          exact h1 _
        · rw [Function.update_noteq hj]
          exact h2 j

lemma chain_after_build (nullRow : Nat → Bool) (bucketOf : Nat → Nat) :
    ∀ (n b fuel : Nat), n ≤ fuel →
      chainFrom (foldRows (buildStep nullRow bucketOf) 1 n emptyIndex).next fuel
          ((foldRows (buildStep nullRow bucketOf) 1 n emptyIndex).first b) =
        ((rowsOf 1 n).filter fun row =>
          !nullRow row && (bucketOf row == b)).reverse := by
  intro n
  induction n with
  | zero =>
    intro b fuel _
    show chainFrom emptyIndex.next fuel (emptyIndex.first b) = _
    rw [show emptyIndex.first b = 0 from rfl, chainFrom_zero]
    rfl
  | succ n ihn =>
    intro b fuel hfuel
    have hsplit : foldRows (buildStep nullRow bucketOf) 1 (n + 1) emptyIndex =
        buildStep nullRow bucketOf
          (foldRows (buildStep nullRow bucketOf) 1 n emptyIndex) (1 + n) := by
      unfold foldRows
      rw [rowsOf_succ, List.foldl_append]
      rfl
    rw [hsplit, rowsOf_succ, List.filter_append, List.reverse_append]
    have hbound : ∀ b' fuel', n ≤ fuel' →
        (1 + n) ∉ chainFrom
          (foldRows (buildStep nullRow bucketOf) 1 n emptyIndex).next fuel'
          ((foldRows (buildStep nullRow bucketOf) 1 n emptyIndex).first b') := by
      intro b' fuel' hf' hmem
      rw [ihn b' fuel' hf'] at hmem
      rw [List.mem_reverse, List.mem_filter] at hmem
      have := (mem_rowsOf.mp hmem.1).2
      omega
    by_cases hnull : nullRow (1 + n) = true
    · have hstep : buildStep nullRow bucketOf
          (foldRows (buildStep nullRow bucketOf) 1 n emptyIndex) (1 + n) =
          foldRows (buildStep nullRow bucketOf) 1 n emptyIndex := by
        unfold buildStep
        rw [if_pos hnull]
      have hfilter : ([1 + n].filter fun row =>
          !nullRow row && (bucketOf row == b)) = [] := by
        simp [List.filter, hnull]
      rw [hstep, hfilter]
      simp only [List.reverse_nil, List.nil_append]
      exact ihn b fuel (by omega)
    · have hnull' : nullRow (1 + n) = false := by
        cases hx : nullRow (1 + n)
        · rfl
        · exact absurd hx hnull
      have hstep : buildStep nullRow bucketOf
          (foldRows (buildStep nullRow bucketOf) 1 n emptyIndex) (1 + n) =
          linkRow (foldRows (buildStep nullRow bucketOf) 1 n emptyIndex)
            (bucketOf (1 + n)) (1 + n) := by
        unfold buildStep
        rw [hnull']
        simp
      rw [hstep]
      by_cases hb : bucketOf (1 + n) = b
      · subst hb
        have hfirst : (linkRow (foldRows (buildStep nullRow bucketOf) 1 n emptyIndex)
            (bucketOf (1 + n)) (1 + n)).first (bucketOf (1 + n)) = 1 + n := by
          unfold linkRow
          exact Function.update_same _ _ _
        match fuel, hfuel with
        | f' + 1, hf =>
          rw [hfirst, chainFrom, if_neg (by omega : ¬ 1 + n = 0)]
          have hnx : (linkRow (foldRows (buildStep nullRow bucketOf) 1 n emptyIndex)
              (bucketOf (1 + n)) (1 + n)).next (1 + n) =
              (foldRows (buildStep nullRow bucketOf) 1 n emptyIndex).first
                (bucketOf (1 + n)) := by
            unfold linkRow
            exact Function.update_same _ _ _
          rw [hnx]
          have hupd : (linkRow (foldRows (buildStep nullRow bucketOf) 1 n emptyIndex)
              (bucketOf (1 + n)) (1 + n)).next =
              Function.update
                (foldRows (buildStep nullRow bucketOf) 1 n emptyIndex).next (1 + n)
                ((foldRows (buildStep nullRow bucketOf) 1 n emptyIndex).first
                  (bucketOf (1 + n))) := rfl
          rw [hupd,
            chainFrom_update_not_mem _ _ _ f' _
              (hbound (bucketOf (1 + n)) f' (by omega)),
            ihn (bucketOf (1 + n)) f' (by omega)]
          simp [List.filter, hnull']
      · have hbne : b ≠ bucketOf (1 + n) := fun hh => hb hh.symm
        have hfirst : (linkRow (foldRows (buildStep nullRow bucketOf) 1 n emptyIndex)
            (bucketOf (1 + n)) (1 + n)).first b =
            (foldRows (buildStep nullRow bucketOf) 1 n emptyIndex).first b := by
          unfold linkRow
          exact Function.update_noteq hbne _ _
        have hupd : (linkRow (foldRows (buildStep nullRow bucketOf) 1 n emptyIndex)
            (bucketOf (1 + n)) (1 + n)).next =
            Function.update
              (foldRows (buildStep nullRow bucketOf) 1 n emptyIndex).next (1 + n)
              ((foldRows (buildStep nullRow bucketOf) 1 n emptyIndex).first
                (bucketOf (1 + n))) := rfl
        rw [hfirst, hupd,
          chainFrom_update_not_mem _ _ _ fuel _ (hbound b fuel (by omega)),
          ihn b fuel (by omega)]
        have hfb : (bucketOf (1 + n) == b) = false := beq_eq_false_iff_ne.mpr hb
        simp [List.filter, hfb]

/-- C1: for a join key with `null_safe_equal` false, a build row whose
value for that key is NULL is never written into `first` or `next`, hence
no bucket chain ever contains it, and a probe row whose value for that key
is NULL gets initial chain cursor 0 in `lookup_init`; such rows participate
in no match. -/
theorem null_key_rows_never_match
    (buildKeys probeKeys : List KeyColumn) (k kp : KeyColumn)
    (bucketOf probeBucketOf : Nat → Nat)
    (rowCount chunkSize probeRowCount r i : Nat)
    (hcs : 0 < chunkSize)
    (hk : k ∈ buildKeys) (hkns : k.null_safe_equal = false)
    (hknn : k.nullable_with_null = true)
    (hr : 1 ≤ r) (hrnull : k.is_null r = true)
    (hkp : kp ∈ probeKeys) (hkpns : kp.null_safe_equal = false)
    (hkpnn : kp.nullable_with_null = true)
    (hi : i < probeRowCount) (hinull : kp.is_null i = true) :
    (∀ b, (construct_hash_table buildKeys bucketOf rowCount chunkSize
        emptyIndex).first b ≠ r) ∧
    (∀ j, (construct_hash_table buildKeys bucketOf rowCount chunkSize
        emptyIndex).next j ≠ r) ∧
    (∀ fuel b, r ∉ chainFrom
        (construct_hash_table buildKeys bucketOf rowCount chunkSize
          emptyIndex).next fuel
        ((construct_hash_table buildKeys bucketOf rowCount chunkSize
          emptyIndex).first b)) ∧
    (lookup_init probeKeys
        (construct_hash_table buildKeys bucketOf rowCount chunkSize
          emptyIndex).first
        probeBucketOf probeRowCount)[i]? = some 0 := by
  have hkmem : k ∈ nullColumnsOf buildKeys := by
    unfold nullColumnsOf
    rw [List.mem_filter]
    refine ⟨hk, ?_⟩
    rw [hkns, hknn]
    rfl
  have hnullr : isNullRow buildKeys r = true := by
    unfold isNullRow
    rw [List.any_eq_true]
    exact ⟨k, hkmem, hrnull⟩
  have hconstr := construct_eq_foldRows buildKeys bucketOf rowCount chunkSize
    emptyIndex
  have hnl := build_not_linked (isNullRow buildKeys) bucketOf r hnullr
    (rowsOf 1 rowCount) emptyIndex
    (fun b => by show (0 : Nat) ≠ r; omega)
    (fun j => by show (0 : Nat) ≠ r; omega)
  refine ⟨?_, ?_, ?_, ?_⟩
  · intro b
    rw [hconstr]
    exact hnl.1 b
  · intro j
    rw [hconstr]
    exact hnl.2 j
  · intro fuel b
    rw [hconstr]
    exact not_mem_chainFrom _ r hnl.2 fuel _ (hnl.1 b)
  · have hkpmem : kp ∈ nullColumnsOf probeKeys := by
      unfold nullColumnsOf
      rw [List.mem_filter]
      refine ⟨hkp, ?_⟩
      rw [hkpns, hkpnn]
      rfl
    have hne : (nullColumnsOf probeKeys).isEmpty = false := by
      cases hx : nullColumnsOf probeKeys
      · rw [hx] at hkpmem
        cases hkpmem
      · rfl
    have hnulli : isNullRow probeKeys i = true := by
      unfold isNullRow
      rw [List.any_eq_true]
      exact ⟨kp, hkpmem, hinull⟩
    unfold lookup_init
    simp only [hne, Bool.false_eq_true, if_false]
    rw [List.getElem?_map, List.getElem?_range hi]
    simp [hnulli]

/-- C6: after the serialized build, each bucket's chain enumerates exactly
the linked (non-excluded) rows that hash to it, in reverse insertion order,
so the most recently inserted such row is found first. -/
theorem build_chain_reverse_insertion_order (keys : List KeyColumn)
    (bucketOf : Nat → Nat) (rowCount chunkSize b fuel : Nat)
    (hcs : 0 < chunkSize) (hfuel : rowCount ≤ fuel) :
    chainFrom (construct_hash_table keys bucketOf rowCount chunkSize
        emptyIndex).next fuel
      ((construct_hash_table keys bucketOf rowCount chunkSize
        emptyIndex).first b) =
      ((rowsOf 1 rowCount).filter fun r =>
        !isNullRow keys r && (bucketOf r == b)).reverse ∧
    (chainFrom (construct_hash_table keys bucketOf rowCount chunkSize
        emptyIndex).next fuel
      ((construct_hash_table keys bucketOf rowCount chunkSize
        emptyIndex).first b)).head? =
      ((rowsOf 1 rowCount).filter fun r =>
        !isNullRow keys r && (bucketOf r == b)).getLast? := by
  have hmain : chainFrom (construct_hash_table keys bucketOf rowCount chunkSize
      emptyIndex).next fuel
      ((construct_hash_table keys bucketOf rowCount chunkSize
        emptyIndex).first b) =
      ((rowsOf 1 rowCount).filter fun r =>
        !isNullRow keys r && (bucketOf r == b)).reverse := by
    rw [construct_eq_foldRows]
    exact chain_after_build (isNullRow keys) bucketOf rowCount b fuel hfuel
  refine ⟨hmain, ?_⟩
  rw [hmain, List.head?_reverse]

/-- Witness for C6: three build rows hashing to buckets 1, 0, 1 give bucket
1 the chain [3, 1] — reverse insertion order. -/
theorem build_chain_reverse_insertion_order_witness :
    chainFrom (construct_hash_table exBuildKeys exBucketOf 3 2 emptyIndex).next 3
      ((construct_hash_table exBuildKeys exBucketOf 3 2 emptyIndex).first 1) =
      [3, 1] := by
  have h := build_chain_reverse_insertion_order exBuildKeys exBucketOf 3 2 1 3
    (by decide) (by decide)
  rw [h.1]
  rfl

/-- Witness for C1 at build row 1 (NULL key) and probe row 0 (NULL key). -/
theorem null_key_rows_never_match_witness :
    (construct_hash_table exNullBuildKeys exBucketOf 2 2 emptyIndex).first 1 ≠ 1 ∧
    (construct_hash_table exNullBuildKeys exBucketOf 2 2 emptyIndex).next 2 ≠ 1 ∧
    1 ∉ chainFrom
      (construct_hash_table exNullBuildKeys exBucketOf 2 2 emptyIndex).next 2
      ((construct_hash_table exNullBuildKeys exBucketOf 2 2 emptyIndex).first 1) ∧
    (lookup_init exNullProbeKeys
      (construct_hash_table exNullBuildKeys exBucketOf 2 2 emptyIndex).first
      exBucketOf 1)[0]? = some 0 := by
  have h := null_key_rows_never_match exNullBuildKeys exNullProbeKeys
    { null_safe_equal := false, nullable_with_null := true,
      is_null := fun r => r == 1 }
    { null_safe_equal := false, nullable_with_null := true,
      is_null := fun i => i == 0 }
    exBucketOf exBucketOf 2 2 1 1 0
    (by decide) (List.mem_cons_self _ _) rfl rfl (by decide) rfl
    (List.mem_cons_self _ _) rfl rfl (by decide) rfl
  exact ⟨h.1 1, h.2.1 2, h.2.2.1 2 1, h.2.2.2⟩

end StarRocks
